import Mathlib

/-
  Verification development for the YGOpen duel-state replay engine
  (src/src/client/board.hpp).  The definitions below are a shallow
  embedding of that header: C++ machine integers are modelled as Nat
  with explicit reductions modulo 2^32 where overflow matters,
  std::map / std::vector become association lists / lists, exceptions
  become explicit error results that carry the board state as it was
  at the moment the exception escaped, and reference mutation becomes
  read-then-write on the corresponding component.
-/

set_option maxHeartbeats 1000000
set_option maxRecDepth 8000

namespace YGOpen

/-- Modelled from the spec: the location bitmask enumeration lives in
src/common/enums/location.hpp, which is not among the provided sources.
Spec section 6 fixes only the set of names and that the value is a
bitmask; each name is given a distinct bit here.  No claim depends on
the concrete numeric values. -/
def LocationMainDeck : Nat := 1

def LocationHand : Nat := 2

def LocationGraveyard : Nat := 4

def LocationBanished : Nat := 8

def LocationExtraDeck : Nat := 16

def LocationMonsterZone : Nat := 32

def LocationSpellZone : Nat := 64

def LocationOverlay : Nat := 128

def LocationOnField : Nat := 256

def LocationFieldZone : Nat := 512

def LocationPendulumZone : Nat := 1024

/-- Modelled from the spec: the position enumeration (position.hpp) is not
among the provided sources; only a face-down constant is needed (FillPile
seeds piles with it) and no claim depends on its numeric value. -/
def PositionFaceDown : Nat := 10

/-- Source board.hpp IsPile(uint32_t): a location is a pile location iff
none of the six field bits are set. -/
def IsPile (location : Nat) : Bool :=
  (location &&& (LocationMonsterZone ||| LocationSpellZone ||| LocationOverlay |||
    LocationOnField ||| LocationFieldZone ||| LocationPendulumZone)) == 0

/-- Source Place tuple: controller, location, sequence, overlay_sequence
(negative overlay_sequence means: not an overlay slot). -/
structure Place where
  controller : Nat
  location : Nat
  sequence : Nat
  overlay_sequence : Int
deriving DecidableEq

def IsPilePlace (p : Place) : Bool := IsPile p.location

/-- Source TempPlace tuple: a Place tagged with the state at removal. -/
structure TempPlace where
  state : Nat
  place : Place
deriving DecidableEq

/-- Protobuf Core::Data::CardInfo as consumed by the handlers:
controller, location, sequence, overlay_sequence, code, position. -/
structure CardInfo where
  controller : Nat
  location : Nat
  sequence : Nat
  overlay_sequence : Int
  code : Nat
  position : Nat
deriving DecidableEq

/-- Protobuf Core::Data::Place as consumed by the handlers. -/
structure PBPlace where
  controller : Nat
  location : Nat
  sequence : Nat
deriving DecidableEq

/-- Protobuf Core::Data::Counter. -/
structure PBCounter where
  type : Nat
  count : Nat
deriving DecidableEq

def PlaceFromProtobufPlace (p : PBPlace) : Place :=
  { controller := p.controller, location := p.location, sequence := p.sequence,
    overlay_sequence := -1 }

def PlaceFromCardInfo (cd : CardInfo) : Place :=
  { controller := cd.controller, location := cd.location, sequence := cd.sequence,
    overlay_sequence := if cd.location &&& LocationOverlay ≠ 0 then cd.overlay_sequence else -1 }

/-- Source Sequential<T, def>: a list of values plus a movable cursor,
implemented in the source as std::list plus an iterator.  The iterator is
modelled as an index into the list. -/
structure Sequential (T : Type) where
  l : List T
  it : Nat
deriving DecidableEq

namespace Sequential

/-- Construction: the list holds exactly the default sentinel and the
cursor points at it. -/
def init {T : Type} (d : T) : Sequential T := ⟨[d], 0⟩

/-- Source AddOrNext(add, v): if add, append v at the back; then advance
the cursor one position. -/
def AddOrNext {T : Type} (s : Sequential T) (add : Bool) (v : T) : Sequential T :=
  ⟨if add then s.l ++ [v] else s.l, s.it + 1⟩

/-- Source Prev(): move the cursor back one position.  Moving back from
the sentinel is undefined behaviour in the source; Nat subtraction keeps
the model total. -/
def Prev {T : Type} (s : Sequential T) : Sequential T := ⟨s.l, s.it - 1⟩

/-- Source operator(): dereference the cursor.  Out-of-bounds dereference
is undefined behaviour in the source; the model returns the supplied
fallback there. -/
def read {T : Type} (s : Sequential T) (d : T) : T := s.l.getD s.it d

/-- Observation of the cell: the value at the cursor, if in bounds. -/
def cur {T : Type} (s : Sequential T) : Option T := s.l.get? s.it

end Sequential

/-- Source Card: one temporal cell per attribute plus a lazily grown
counter map.  The C++ field named def is called defn here (def is a
Lean keyword). -/
structure Card where
  pos : Sequential Nat
  code : Sequential Nat
  aliasCode : Sequential Nat
  type : Sequential Nat
  level : Sequential Int
  rank : Sequential Nat
  attr : Sequential Nat
  race : Sequential Nat
  atk : Sequential Int
  defn : Sequential Int
  bAtk : Sequential Int
  bDef : Sequential Int
  owner : Sequential Nat
  lscale : Sequential Nat
  rscale : Sequential Nat
  links : Sequential Nat
  counters : List (Nat × Sequential Nat)
deriving DecidableEq

/-- Default-constructed Card: unsigned cells start at 0, signed cells at
-1 (the Sequential template default), no counters. -/
def Card.init : Card :=
  { pos := .init 0, code := .init 0, aliasCode := .init 0, type := .init 0,
    level := .init (-1), rank := .init 0, attr := .init 0, race := .init 0,
    atk := .init (-1), defn := .init (-1), bAtk := .init (-1), bDef := .init (-1),
    owner := .init 0, lscale := .init 0, rscale := .init 0, links := .init 0,
    counters := [] }

section AssocList

variable {κ ν : Type} [DecidableEq κ]

/-- Lookup of the first binding of a key (std::map find). -/
def alFind : List (κ × ν) → κ → Option ν
  | [], _ => none
  | (k, v) :: t, k0 => if k = k0 then some v else alFind t k0

/-- Insert-or-overwrite (std::map operator[] followed by assignment). -/
def alAssign : List (κ × ν) → κ → ν → List (κ × ν)
  | [], k0, v0 => [(k0, v0)]
  | (k, v) :: t, k0, v0 => if k = k0 then (k0, v0) :: t else (k, v) :: alAssign t k0 v0

/-- Remove the binding of a key, if present (std::map erase). -/
def alErase : List (κ × ν) → κ → List (κ × ν)
  | [], _ => []
  | (k, v) :: t, k0 => if k = k0 then t else (k, v) :: alErase t k0

/-- Insert only if the key is absent (std::map emplace: an existing
binding is kept and the argument is dropped). -/
def alEmplace (m : List (κ × ν)) (k : κ) (v : ν) : List (κ × ν) :=
  match alFind m k with
  | some _ => m
  | none => m ++ [(k, v)]

end AssocList

section ListOps

variable {α : Type}

/-- std::vector emplace(begin() + i, c): insert at index i.  Inserting
past the end is undefined behaviour in the source; the model leaves the
list unchanged there. -/
def insertAt : List α → Nat → α → List α
  | l, 0, c => c :: l
  | [], _ + 1, _ => []
  | x :: t, i + 1, c => x :: insertAt t i c

/-- std::vector erase(begin() + i).  Erasing past the end is undefined
behaviour in the source; the model leaves the list unchanged there. -/
def eraseAt : List α → Nat → List α
  | [], _ => []
  | _ :: t, 0 => t
  | x :: t, i + 1 => x :: eraseAt t i

/-- Mutation of the element at index i through a reference
(vector[i].field = ...).  Out of bounds is undefined behaviour in the
source; the model leaves the list unchanged there. -/
def modifyAt : List α → Nat → (α → α) → List α
  | [], _, _ => []
  | c :: t, 0, f => f c :: t
  | c :: t, i + 1, f => c :: modifyAt t i f

/-- Index map used to state the Draw handler counterparts of the C++
indexed for loops. -/
def mapWithIndex {β : Type} (f : Nat → α → β) : List α → List β
  | [] => []
  | a :: t => f 0 a :: mapWithIndex (fun i => f (i + 1)) t

end ListOps

/-- Two-element std::array indexed by the player/controller number. -/
structure PerPlayer (α : Type) where
  p0 : α
  p1 : α
deriving DecidableEq

def PerPlayer.get {α : Type} (x : PerPlayer α) (i : Nat) : α :=
  if i = 0 then x.p0 else x.p1

def PerPlayer.set {α : Type} (x : PerPlayer α) (i : Nat) (v : α) : PerPlayer α :=
  if i = 0 then { x with p0 := v } else { x with p1 := v }

/-- Game half of DuelBoard<C>: everything the message handlers read and
write.  The handlers only read realtime, advancing and state, so those
stay on the Board wrapper and are passed to handlers as arguments. -/
structure Game where
  turn : Nat
  playerLP : PerPlayer (Sequential Nat)
  turnPlayer : Sequential Nat
  phase : Sequential Nat
  deck : PerPlayer (List Card)
  hand : PerPlayer (List Card)
  grave : PerPlayer (List Card)
  rmp : PerPlayer (List Card)
  eDeck : PerPlayer (List Card)
  fieldZones : List (Place × Card)
  disabledZones : List (Place × Sequential Bool)
  tempCards : List (TempPlace × Card)
deriving DecidableEq

/-- Error kinds actually raised by the source (both are thrown as bare
std::exception; the model distinguishes the two throw sites). -/
inductive DuelErr where
  | unknownLocation
  | illegalMove
deriving DecidableEq

/-- Result of GetPile. -/
inductive PRes where
  | ok (pile : List Card)
  | err (e : DuelErr)
deriving DecidableEq

/-- Result of GetCard-style reference access: the card read and the game
as possibly mutated by the access itself (std::map operator[] inserts a
default value for an absent key). -/
inductive CRes where
  | ok (c : Card) (g : Game)
  | err (e : DuelErr)
deriving DecidableEq

/-- Result of a game mutation that can only fail before mutating. -/
inductive GRes where
  | ok (g : Game)
  | err (e : DuelErr)
deriving DecidableEq

/-- Result of a handler or of MoveSingle: on error the game is carried in
the state it had when the exception escaped (C++ exceptions leave the
board object as mutated so far). -/
inductive HRes where
  | ok (g : Game)
  | err (e : DuelErr) (g : Game)
deriving DecidableEq

def HRes.game : HRes → Game
  | .ok g => g
  | .err _ g => g

def HRes.errOf : HRes → Option DuelErr
  | .ok _ => none
  | .err e _ => some e

/-- Source GetPile(controller, location): the switch over the five pile
kinds; any other location throws (UnknownLocation). -/
def Game.getPile (g : Game) (controller location : Nat) : PRes :=
  if location = LocationMainDeck then .ok (g.deck.get controller)
  else if location = LocationHand then .ok (g.hand.get controller)
  else if location = LocationGraveyard then .ok (g.grave.get controller)
  else if location = LocationBanished then .ok (g.rmp.get controller)
  else if location = LocationExtraDeck then .ok (g.eDeck.get controller)
  else .err .unknownLocation

/-- Write-back for a pile previously obtained by reference from GetPile. -/
def Game.setPile (g : Game) (controller location : Nat) (pile : List Card) : Game :=
  if location = LocationMainDeck then { g with deck := g.deck.set controller pile }
  else if location = LocationHand then { g with hand := g.hand.set controller pile }
  else if location = LocationGraveyard then { g with grave := g.grave.set controller pile }
  else if location = LocationBanished then { g with rmp := g.rmp.set controller pile }
  else if location = LocationExtraDeck then { g with eDeck := g.eDeck.set controller pile }
  else g

/-- Source GetCard(place): for pile places, GetPile(place)[sequence]
(out-of-range indexing is undefined behaviour, modelled by the default
card); for field places, fieldZones[place] with std::map operator[],
which default-inserts an entry when the key is absent. -/
def Game.getCardRef (g : Game) (p : Place) : CRes :=
  if IsPilePlace p then
    match g.getPile p.controller p.location with
    | .err e => .err e
    | .ok pile => .ok (pile.getD p.sequence Card.init) g
  else
    match alFind g.fieldZones p with
    | some c => .ok c g
    | none => .ok Card.init { g with fieldZones := g.fieldZones ++ [(p, Card.init)] }

/-- Write-back for a card previously obtained by reference. -/
def Game.setCardAt (g : Game) (p : Place) (c : Card) : Game :=
  if IsPilePlace p then
    match g.getPile p.controller p.location with
    | .err _ => g
    | .ok pile => g.setPile p.controller p.location (pile.set p.sequence c)
  else
    { g with fieldZones := alAssign g.fieldZones p c }

/-- Reference access followed by mutation of the referenced card. -/
def Game.modifyCardAt (g : Game) (p : Place) (f : Card → Card) : GRes :=
  match g.getCardRef p with
  | .err e => .err e
  | .ok c g1 => .ok (g1.setCardAt p (f c))

/-- Source ClearAllCounters(card): when advancing, AddOrNext(realtime, 0)
on every counter cell; when regressing, Prev on every counter cell. -/
def clearAllCounters (advancing realtime : Bool) (c : Card) : Card :=
  { c with counters := c.counters.map (fun kv =>
      (kv.1, if advancing then kv.2.AddOrNext realtime 0 else kv.2.Prev)) }

/-- Source MoveSingle(from, to).  Throws IllegalMove when from = to,
before any mutation.  The four pile/field endpoint combinations follow
the source exactly; when both endpoints are places of the one same pile
the C++ references alias one vector, so the insert-then-erase sequence is
replayed on that single list (the value moved out is read before the
insertion, matching the evaluation order of the source). -/
def Game.moveSingle (g : Game) (advancing realtime : Bool) (fr toPl : Place) : HRes :=
  if fr = toPl then .err .illegalMove g
  else if IsPilePlace fr then
    match g.getPile fr.controller fr.location with
    | .err e => .err e g
    | .ok fromPile =>
      if IsPilePlace toPl then
        match g.getPile toPl.controller toPl.location with
        | .err e => .err e g
        | .ok toPile =>
          if fr.controller = toPl.controller ∧ fr.location = toPl.location then
            let v := fromPile.getD fr.sequence Card.init
            .ok (g.setPile fr.controller fr.location
              (eraseAt (insertAt fromPile toPl.sequence v) fr.sequence))
          else
            let v := fromPile.getD fr.sequence Card.init
            .ok ((g.setPile toPl.controller toPl.location (insertAt toPile toPl.sequence v)).setPile
              fr.controller fr.location (eraseAt fromPile fr.sequence))
      else
        let v := fromPile.getD fr.sequence Card.init
        .ok { g.setPile fr.controller fr.location (eraseAt fromPile fr.sequence) with
              fieldZones := alAssign g.fieldZones toPl (clearAllCounters advancing realtime v) }
  else
    if IsPilePlace toPl then
      match g.getPile toPl.controller toPl.location with
      | .err e => .err e g
      | .ok toPile =>
        let v := (alFind g.fieldZones fr).getD Card.init
        .ok { g.setPile toPl.controller toPl.location
                (insertAt toPile toPl.sequence (clearAllCounters advancing realtime v)) with
              fieldZones := alErase g.fieldZones fr }
    else
      let v := (alFind g.fieldZones fr).getD Card.init
      .ok { g with fieldZones := alErase (alAssign g.fieldZones toPl v) fr }

/-- Core::Msg::UpdateCard reason values. -/
inductive UpdateReason where
  | deckTop
  | move
  | posChange
  | set
deriving DecidableEq

/-- Core::Msg::CounterChange type values. -/
inductive CounterOp where
  | add
  | remove
deriving DecidableEq

/-- Core::Msg::LpChange type values. -/
inductive LpOp where
  | damage
  | pay
  | recover
  | become
deriving DecidableEq

/-- Entry of the repeated cards field of a Draw message (only the code is
read by the handler). -/
structure DrawnCard where
  code : Nat
deriving DecidableEq

/-- Entry of the repeated shuffled_cards field of a ShuffleLocation
message (only the code is read by the handler). -/
structure ShuffledCard where
  code : Nat
deriving DecidableEq

/-- Core::Information: the critical message variants with exactly the
fields the handlers read, plus one stand-in for the non-critical
variants (which the interpreter ignores). -/
inductive Information where
  | updateCard (reason : UpdateReason) (previous current : CardInfo)
  | addCard (card : CardInfo)
  | removeCard (card : CardInfo)
  | draw (player : Nat) (cards : List DrawnCard)
  | swapCards (card1 card2 : CardInfo)
  | shuffleLocation (player location : Nat) (shuffled_cards : List ShuffledCard)
  | shuffleSetCards (cards_previous cards_current : List CardInfo)
  | counterChange (place : PBPlace) (counter : PBCounter) (ty : CounterOp)
  | disableZones (places : List PBPlace)
  | lpChange (player : Nat) (ty : LpOp) (amount : Nat)
  | newTurn (turn_player : Nat)
  | newPhase (phase : Nat)
  | nonCritical
deriving DecidableEq

/-- Core::AnyMsg: a tagged union that either carries an Information or
some other variant the interpreter ignores. -/
inductive AnyMsg where
  | information (i : Information)
  | other
deriving DecidableEq

/-- Modulus of the C++ 32-bit unsigned arithmetic used by the handlers. -/
def U32 : Nat := 4294967296

/-- Source AddCounter(place, counter): if the card already has a cell for
the counter type, AddOrNext(realtime, current + count) on it (uint32
addition); otherwise operator[] creates a fresh cell and
AddOrNext(realtime, count) is applied to it. -/
def Game.addCounter (g : Game) (realtime : Bool) (place : Place) (counter : Nat × Nat) :
    GRes :=
  match g.getCardRef place with
  | .err e => .err e
  | .ok c g1 =>
    match alFind c.counters counter.1 with
    | some s =>
      let s' := s.AddOrNext realtime ((s.read 0 + counter.2) % U32)
      .ok (g1.setCardAt place { c with counters := alAssign c.counters counter.1 s' })
    | none =>
      let s' := (Sequential.init 0).AddOrNext realtime counter.2
      .ok (g1.setCardAt place { c with counters := c.counters ++ [(counter.1, s')] })

/-- Source RemoveCounter(place, counter): Prev on the counter cell
(operator[] creates the cell first when it is absent). -/
def Game.removeCounter (g : Game) (place : Place) (counter : Nat × Nat) : GRes :=
  match g.getCardRef place with
  | .err e => .err e
  | .ok c g1 =>
    let s := (alFind c.counters counter.1).getD (Sequential.init 0)
    .ok (g1.setCardAt place { c with counters := alAssign c.counters counter.1 s.Prev })

/-- Source HANDLE(UpdateCard).  For REASON_DECK_TOP the source addresses
the card as *(pile.rbegin() - previous.sequence()), which dereferences
the element at index length - 1 + sequence: the back for sequence 0,
and past the end (undefined behaviour) for larger sequences, where the
model's modifyAt is a no-op. -/
def handleUpdateCard (realtime advancing : Bool) (reason : UpdateReason)
    (previousInfo currentInfo : CardInfo) (g : Game) : HRes :=
  if advancing then
    match reason with
    | .deckTop =>
      let pl := PlaceFromCardInfo previousInfo
      match g.getPile pl.controller pl.location with
      | .err e => .err e g
      | .ok pile =>
        .ok (g.setPile pl.controller pl.location
          (modifyAt pile (pile.length - 1 + previousInfo.sequence)
            (fun c => { c with code := c.code.AddOrNext realtime currentInfo.code })))
    | .move =>
      let previous := PlaceFromCardInfo previousInfo
      let current := PlaceFromCardInfo currentInfo
      match g.moveSingle advancing realtime previous current with
      | .err e g1 => .err e g1
      | .ok g1 =>
        match g1.modifyCardAt current (fun c =>
            { c with code := c.code.AddOrNext realtime currentInfo.code,
                     pos := c.pos.AddOrNext realtime currentInfo.position }) with
        | .err e => .err e g1
        | .ok g2 => .ok g2
    | _ =>
      match g.modifyCardAt (PlaceFromCardInfo previousInfo) (fun c =>
          { c with code := c.code.AddOrNext realtime currentInfo.code,
                   pos := c.pos.AddOrNext realtime currentInfo.position }) with
      | .err e => .err e g
      | .ok g1 => .ok g1
  else
    match reason with
    | .deckTop =>
      let pl := PlaceFromCardInfo previousInfo
      match g.getPile pl.controller pl.location with
      | .err e => .err e g
      | .ok pile =>
        .ok (g.setPile pl.controller pl.location
          (modifyAt pile (pile.length - 1 + previousInfo.sequence)
            (fun c => { c with code := c.code.Prev })))
    | .move =>
      let previous := PlaceFromCardInfo previousInfo
      let current := PlaceFromCardInfo currentInfo
      match g.modifyCardAt current (fun c =>
          { c with code := c.code.Prev, pos := c.pos.Prev }) with
      | .err e => .err e g
      | .ok g1 => g1.moveSingle advancing realtime current previous
    | _ =>
      match g.modifyCardAt (PlaceFromCardInfo previousInfo) (fun c =>
          { c with code := c.code.Prev, pos := c.pos.Prev }) with
      | .err e => .err e g
      | .ok g1 => .ok g1

/-- Source HANDLE(AddCard).  Forward realtime inserts a fresh card at the
place; forward non-realtime moves it out of tempCards keyed by the
current state; backward retreats code and position and moves the card
into tempCards.  The std::map emplace used on fieldZones and tempCards
keeps an existing binding, so the model does too; a tempCards lookup of
an absent key default-constructs (operator[]), and the entry is erased
right after, leaving the net effect of a plain lookup-or-default. -/
def handleAddCard (realtime advancing : Bool) (state : Nat) (cardInfo : CardInfo)
    (g : Game) : HRes :=
  let place := PlaceFromCardInfo cardInfo
  let appendCP := fun (c : Card) =>
    { c with code := c.code.AddOrNext realtime cardInfo.code,
             pos := c.pos.AddOrNext realtime cardInfo.position }
  if advancing then
    if realtime then
      if IsPilePlace place then
        match g.getPile place.controller place.location with
        | .err e => .err e g
        | .ok pile =>
          .ok (g.setPile place.controller place.location
            (insertAt pile place.sequence (appendCP Card.init)))
      else
        match alFind g.fieldZones place with
        | some c0 => .ok { g with fieldZones := alAssign g.fieldZones place (appendCP c0) }
        | none => .ok { g with fieldZones := g.fieldZones ++ [(place, appendCP Card.init)] }
    else
      let t : TempPlace := ⟨state, place⟩
      let v := (alFind g.tempCards t).getD Card.init
      if IsPilePlace place then
        match g.getPile place.controller place.location with
        | .err e => .err e g
        | .ok pile =>
          .ok { g.setPile place.controller place.location
                  (insertAt pile place.sequence (appendCP v)) with
                tempCards := alErase g.tempCards t }
      else
        match alFind g.fieldZones place with
        | some c0 =>
          .ok { g with fieldZones := alAssign g.fieldZones place (appendCP c0),
                       tempCards := alErase g.tempCards t }
        | none =>
          .ok { g with fieldZones := g.fieldZones ++ [(place, appendCP v)],
                       tempCards := alErase g.tempCards t }
  else
    let t : TempPlace := ⟨state, place⟩
    if IsPilePlace place then
      match g.getPile place.controller place.location with
      | .err e => .err e g
      | .ok pile =>
        let card := appendCPrev (pile.getD place.sequence Card.init)
        .ok { g.setPile place.controller place.location (eraseAt pile place.sequence) with
              tempCards := alEmplace g.tempCards t card }
    else
      let card := appendCPrev ((alFind g.fieldZones place).getD Card.init)
      .ok { g with fieldZones := alErase g.fieldZones place,
                   tempCards := alEmplace g.tempCards t card }
where
  appendCPrev (c : Card) : Card := { c with code := c.code.Prev, pos := c.pos.Prev }

/-- Source HANDLE(RemoveCard): forward moves the card at the place into
tempCards keyed by the current state; backward moves it back. -/
def handleRemoveCard (state : Nat) (advancing : Bool) (cardInfo : CardInfo)
    (g : Game) : HRes :=
  let place := PlaceFromCardInfo cardInfo
  let t : TempPlace := ⟨state, place⟩
  if advancing then
    if IsPilePlace place then
      match g.getPile place.controller place.location with
      | .err e => .err e g
      | .ok pile =>
        .ok { g.setPile place.controller place.location (eraseAt pile place.sequence) with
              tempCards := alEmplace g.tempCards t (pile.getD place.sequence Card.init) }
    else
      .ok { g with fieldZones := alErase g.fieldZones place,
                   tempCards := alEmplace g.tempCards t
                     ((alFind g.fieldZones place).getD Card.init) }
  else
    let v := (alFind g.tempCards t).getD Card.init
    if IsPilePlace place then
      match g.getPile place.controller place.location with
      | .err e => .err e g
      | .ok pile =>
        .ok { g.setPile place.controller place.location (insertAt pile place.sequence v) with
              tempCards := alErase g.tempCards t }
    else
      .ok { g with fieldZones := alEmplace g.fieldZones place v,
                   tempCards := alErase g.tempCards t }

/-- Source HANDLE(Draw).  Forward: move the top n cards of the deck to
the hand tail (reverse iteration, so the topmost deck card lands first),
then append the revealed code to hand[handSz + i] for each i.  Backward:
retreat the code of hand[handSz - 1 - i] for each i, then move the tail
n cards of the hand back onto the deck top. -/
def handleDraw (realtime advancing : Bool) (player : Nat) (cards : List DrawnCard)
    (g : Game) : HRes :=
  let handSz := (g.hand.get player).length
  let n := cards.length
  if advancing then
    let deckL := g.deck.get player
    let hand1 := g.hand.get player ++ (deckL.drop (deckL.length - n)).reverse
    let hand2 := (List.range n).foldl (fun h i =>
      modifyAt h (handSz + i) (fun c =>
        { c with code := c.code.AddOrNext realtime ((cards.getD i ⟨0⟩).code) })) hand1
    .ok { g with deck := g.deck.set player (deckL.take (deckL.length - n)),
                 hand := g.hand.set player hand2 }
  else
    let handL := g.hand.get player
    let hand1 := (List.range n).foldl (fun h i =>
      modifyAt h (handSz - i - 1) (fun c => { c with code := c.code.Prev })) handL
    .ok { g with deck := g.deck.set player
                   (g.deck.get player ++ (hand1.drop (handSz - n)).reverse),
                 hand := g.hand.set player (hand1.take (handSz - n)) }

/-- Source HANDLE(SwapCards): extract the card at the first place, move
the card at the second place onto the first with MoveSingle, reinsert
the extracted card at the second place.  There is no advancing branch in
the source; MoveSingle may throw after the extraction already mutated
the board. -/
def handleSwapCards (realtime advancing : Bool) (card1Info card2Info : CardInfo)
    (g : Game) : HRes :=
  let card1Place := PlaceFromCardInfo card1Info
  let card2Place := PlaceFromCardInfo card2Info
  let extract : HRes :=
    if IsPilePlace card1Place then
      match g.getPile card1Place.controller card1Place.location with
      | .err e => .err e g
      | .ok pile =>
        .ok (g.setPile card1Place.controller card1Place.location
          (eraseAt pile card1Place.sequence))
    else
      .ok { g with fieldZones := alErase g.fieldZones card1Place }
  let tmp :=
    if IsPilePlace card1Place then
      match g.getPile card1Place.controller card1Place.location with
      | .err _ => Card.init
      | .ok pile => pile.getD card1Place.sequence Card.init
    else (alFind g.fieldZones card1Place).getD Card.init
  match extract with
  | .err e g1 => .err e g1
  | .ok g1 =>
    match g1.moveSingle advancing realtime card2Place card1Place with
    | .err e g2 => .err e g2
    | .ok g2 =>
      if IsPilePlace card2Place then
        match g2.getPile card2Place.controller card2Place.location with
        | .err e => .err e g2
        | .ok pile =>
          .ok (g2.setPile card2Place.controller card2Place.location
            (insertAt pile card2Place.sequence tmp))
      else
        .ok { g2 with fieldZones := alAssign g2.fieldZones card2Place tmp }

/-- Source HANDLE(ShuffleLocation).  Forward: walk the pile appending
shuffled_cards[i].code when the repeated field is non-empty, else 0
(unknown).  Backward: retreat every code cell of the pile. -/
def handleShuffleLocation (realtime advancing : Bool) (player location : Nat)
    (shuffled_cards : List ShuffledCard) (g : Game) : HRes :=
  match g.getPile player location with
  | .err e => .err e g
  | .ok pile =>
    if advancing then
      let pile' :=
        if shuffled_cards.isEmpty then
          pile.map (fun c => { c with code := c.code.AddOrNext realtime 0 })
        else
          mapWithIndex (fun i c =>
            { c with code := c.code.AddOrNext realtime ((shuffled_cards.getD i ⟨0⟩).code) }) pile
      .ok (g.setPile player location pile')
    else
      .ok (g.setPile player location (pile.map (fun c => { c with code := c.code.Prev })))

/-- Source HANDLE(ShuffleSetCards).  For each entry of cards_previous the
handler mutates fieldZones at that place through operator[] (which
default-inserts an absent key).  Forward appends the matching
cards_current code and position when cards_current is non-empty, else
code 0 and the previous position; backward retreats both cells. -/
def handleShuffleSetCards (realtime advancing : Bool)
    (cards_previous cards_current : List CardInfo) (g : Game) : HRes :=
  let dummy : CardInfo := ⟨0, 0, 0, -1, 0, 0⟩
  if advancing then
    .ok ((List.range cards_previous.length).foldl (fun gg i =>
      let pl := PlaceFromCardInfo (cards_previous.getD i dummy)
      let c := (alFind gg.fieldZones pl).getD Card.init
      let c' :=
        if cards_current.isEmpty then
          { c with code := c.code.AddOrNext realtime 0,
                   pos := c.pos.AddOrNext realtime ((cards_previous.getD i dummy).position) }
        else
          { c with code := c.code.AddOrNext realtime ((cards_current.getD i dummy).code),
                   pos := c.pos.AddOrNext realtime ((cards_current.getD i dummy).position) }
      { gg with fieldZones := alAssign gg.fieldZones pl c' }) g)
  else
    .ok ((List.range cards_previous.length).foldl (fun gg i =>
      let pl := PlaceFromCardInfo (cards_previous.getD i dummy)
      let c := (alFind gg.fieldZones pl).getD Card.init
      let c' : Card := { c with code := c.code.Prev, pos := c.pos.Prev }
      { gg with fieldZones := alAssign gg.fieldZones pl c' }) g)

/-- Source HANDLE(CounterChange): advancing ADD and regressing REMOVE
run AddCounter; advancing REMOVE and regressing ADD run RemoveCounter. -/
def handleCounterChange (realtime advancing : Bool) (place : PBPlace)
    (counter : PBCounter) (ty : CounterOp) (g : Game) : HRes :=
  let pl := PlaceFromProtobufPlace place
  let cnt : Nat × Nat := (counter.type, counter.count)
  let res :=
    if advancing then
      match ty with
      | .add => g.addCounter realtime pl cnt
      | .remove => g.removeCounter pl cnt
    else
      match ty with
      | .add => g.removeCounter pl cnt
      | .remove => g.addCounter realtime pl cnt
  match res with
  | .err e => .err e g
  | .ok g1 => .ok g1

/-- Source HANDLE(DisableZones).  Forward: when not realtime, first a
sync pass advances every disabled-zones cell without appending; then an
unconditional append pass (AddOrNext with the literal constant true)
appends, for every cell, whether its place occurs in the message.
Backward: Prev on every cell. -/
def handleDisableZones (realtime advancing : Bool) (places : List PBPlace)
    (g : Game) : HRes :=
  if advancing then
    let dz0 :=
      if realtime then g.disabledZones
      else g.disabledZones.map (fun z => (z.1, z.2.AddOrNext false false))
    let pset := places.map PlaceFromProtobufPlace
    let dz1 := dz0.map (fun z => (z.1, z.2.AddOrNext true (decide (z.1 ∈ pset))))
    .ok { g with disabledZones := dz1 }
  else
    .ok { g with disabledZones := g.disabledZones.map (fun z => (z.1, z.2.Prev)) }

/-- Source HANDLE(LpChange).  Forward DAMAGE and PAY compute
(int32)current - amount in 32-bit arithmetic and clamp a negative signed
result to 0; RECOVER adds in uint32; BECOME overwrites.  Backward
retreats the cell. -/
def handleLpChange (realtime advancing : Bool) (player : Nat) (ty : LpOp)
    (amount : Nat) (g : Game) : HRes :=
  if advancing then
    let cur := (g.playerLP.get player).read 0
    let newv :=
      match ty with
      | .damage | .pay =>
        let deltaU := (cur % U32 + (U32 - amount % U32)) % U32
        if deltaU < 2147483648 then deltaU else 0
      | .recover => (cur + amount) % U32
      | .become => amount % U32
    let lp' := (g.playerLP.get player).AddOrNext realtime newv
    .ok { g with playerLP := g.playerLP.set player lp' }
  else
    .ok { g with playerLP := g.playerLP.set player ((g.playerLP.get player).Prev) }

/-- Source HANDLE(NewTurn): forward increments the turn counter and
appends the turn player; backward retreats and decrements.  The plain
uint32 counter wraps modulo 2^32. -/
def handleNewTurn (realtime advancing : Bool) (turn_player : Nat) (g : Game) : HRes :=
  if advancing then
    .ok { g with turn := (g.turn + 1) % U32,
                 turnPlayer := g.turnPlayer.AddOrNext realtime turn_player }
  else
    .ok { g with turnPlayer := g.turnPlayer.Prev,
                 turn := (g.turn + (U32 - 1)) % U32 }

/-- Source HANDLE(NewPhase). -/
def handleNewPhase (realtime advancing : Bool) (phase : Nat) (g : Game) : HRes :=
  if advancing then .ok { g with phase := g.phase.AddOrNext realtime phase }
  else .ok { g with phase := g.phase.Prev }

/-- Source InterpretMsg: dispatch a critical Information variant to its
handler; non-critical variants and non-Information messages leave the
board untouched. -/
def interpretMsg (realtime advancing : Bool) (state : Nat) (m : AnyMsg)
    (g : Game) : HRes :=
  match m with
  | .other => .ok g
  | .information i =>
    match i with
    | .updateCard reason previous current =>
      handleUpdateCard realtime advancing reason previous current g
    | .addCard card => handleAddCard realtime advancing state card g
    | .removeCard card => handleRemoveCard state advancing card g
    | .draw player cards => handleDraw realtime advancing player cards g
    | .swapCards card1 card2 => handleSwapCards realtime advancing card1 card2 g
    | .shuffleLocation player location sc =>
      handleShuffleLocation realtime advancing player location sc g
    | .shuffleSetCards prev cur => handleShuffleSetCards realtime advancing prev cur g
    | .counterChange place counter ty =>
      handleCounterChange realtime advancing place counter ty g
    | .disableZones places => handleDisableZones realtime advancing places g
    | .lpChange player ty amount => handleLpChange realtime advancing player ty amount g
    | .newTurn tp => handleNewTurn realtime advancing tp g
    | .newPhase ph => handleNewPhase realtime advancing ph g
    | .nonCritical => .ok g

/-- Source in-class initializer of disabledZones: the construction loop
runs for(con = 0; con < 1; con++) over the three zone locations, with
MonsterZone sequences 0..6, SpellZone sequences 0..5 and PendulumZone
sequences 0..1, overlay_sequence always -1.  Exactly as written, only
controller 0 is visited.  The entries appear in std::map key order,
which coincides with this construction order. -/
def disabledZonesInit : List (Place × Sequential Bool) :=
  ((List.range 7).map (fun s =>
    (⟨0, LocationMonsterZone, s, -1⟩, Sequential.init false))) ++
  ((List.range 6).map (fun s =>
    (⟨0, LocationSpellZone, s, -1⟩, Sequential.init false))) ++
  ((List.range 2).map (fun s =>
    (⟨0, LocationPendulumZone, s, -1⟩, Sequential.init false)))

/-- Default-constructed Game part of DuelBoard: empty piles, empty field,
the disabledZones fixed domain, LP/turn-player/phase cells at their
sentinel, turn counter 0, no temporal cards. -/
def Game.init : Game :=
  { turn := 0,
    playerLP := ⟨Sequential.init 0, Sequential.init 0⟩,
    turnPlayer := Sequential.init 0,
    phase := Sequential.init 0,
    deck := ⟨[], []⟩, hand := ⟨[], []⟩, grave := ⟨[], []⟩,
    rmp := ⟨[], []⟩, eDeck := ⟨[], []⟩,
    fieldZones := [],
    disabledZones := disabledZonesInit,
    tempCards := [] }

/-- DuelBoard state outside the Game data: the message log, the two
cursor indices and the two direction/mode flags.  The handlers only read
realtime, advancing and state, which Forward and Backward pass to them. -/
structure Board where
  game : Game
  realtime : Bool
  advancing : Bool
  state : Nat
  processedState : Nat
  msgs : List AnyMsg
deriving DecidableEq

/-- Default-constructed DuelBoard. -/
def Board.init : Board :=
  { game := Game.init, realtime := false, advancing := false,
    state := 0, processedState := 0, msgs := [] }

/-- Result of Forward, Backward or FillPile: on error the escaped
exception leaves the board as mutated so far. -/
inductive BRes where
  | ok (b : Board)
  | err (e : DuelErr) (b : Board)
deriving DecidableEq

def BRes.board : BRes → Board
  | .ok b => b
  | .err _ b => b

def BRes.errOf : BRes → Option DuelErr
  | .ok _ => none
  | .err e _ => some e

/-- Source AppendMsg: push the message at the end of the log. -/
def Board.AppendMsg (b : Board) (m : AnyMsg) : Board :=
  { b with msgs := b.msgs ++ [m] }

/-- Source Forward(): no-op when the log is empty or state is past the
last message; otherwise compute realtime, bump processedState when
realtime, set advancing, dispatch the message at index state and then
increment state.  When the dispatched handler throws, the increment of
state is never reached. -/
def Board.Forward (b : Board) : BRes :=
  if b.msgs.length = 0 ∨ b.state > b.msgs.length - 1 then .ok b
  else
    let rt := decide (b.state = b.processedState)
    let ps := if rt then b.processedState + 1 else b.processedState
    match interpretMsg rt true b.state (b.msgs.getD b.state .other) b.game with
    | .ok g =>
      .ok { game := g, realtime := rt, advancing := true,
            state := b.state + 1, processedState := ps, msgs := b.msgs }
    | .err e g =>
      .err e { game := g, realtime := rt, advancing := true,
               state := b.state, processedState := ps, msgs := b.msgs }

/-- Source Backward(): no-op when state = 0; otherwise clear realtime
and advancing, decrement state and dispatch the message at the new
state. -/
def Board.Backward (b : Board) : BRes :=
  if b.state = 0 then .ok b
  else
    let st := b.state - 1
    match interpretMsg false false st (b.msgs.getD st .other) b.game with
    | .ok g =>
      .ok { game := g, realtime := false, advancing := false,
            state := st, processedState := b.processedState, msgs := b.msgs }
    | .err e g =>
      .err e { game := g, realtime := false, advancing := false,
               state := st, processedState := b.processedState, msgs := b.msgs }

/-- Source FillPile: resize the pile to num default cards and append a
face-down position entry to every card of the pile. -/
def Board.FillPile (b : Board) (controller location : Nat) (num : Nat) : BRes :=
  match b.game.getPile controller location with
  | .err e => .err e b
  | .ok pile =>
    let resized := pile.take num ++ List.replicate (num - pile.length) Card.init
    let pile' := resized.map (fun c => { c with pos := c.pos.AddOrNext true PositionFaceDown })
    .ok { b with game := b.game.setPile controller location pile' }

/-- Source SetLP: append the initial life points for a player. -/
def Board.SetLP (b : Board) (controller lp : Nat) : Board :=
  let lp' := (b.game.playerLP.get controller).AddOrNext true (lp % U32)
  { b with game := { b.game with playerLP := b.game.playerLP.set controller lp' } }

/-- External operations on a board, used to quantify over reachable
states: appending a message, one Forward step, one Backward step.  After
an error the C++ board object still exists in its mutated state, so the
step keeps that board. -/
inductive Op where
  | append (m : AnyMsg)
  | fwd
  | bwd
deriving DecidableEq

def stepOp (b : Board) : Op → Board
  | .append m => b.AppendMsg m
  | .fwd => b.Forward.board
  | .bwd => b.Backward.board

def runOpsFrom (b : Board) (ops : List Op) : Board := ops.foldl stepOp b

/-- Board reached from the default-constructed board by a list of
operations. -/
def runOps (ops : List Op) : Board := runOpsFrom Board.init ops

/-- Observation of one disabled-zones cell: its binding in the map, read
at the cursor. -/
def dzCur (b : Board) (p : Place) : Option (Option Bool) :=
  (alFind b.game.disabledZones p).map Sequential.cur

/-- Observation of a player's current life points. -/
def lpCur (g : Game) (player : Nat) : Option Nat := (g.playerLP.get player).cur

/-- Observation of a card's current code. -/
def codeCur (c : Card) : Option Nat := c.code.cur

/-- Cursor-state invariant of the board: the visible cursor never passes
the high-water mark, and the high-water mark never passes the log
length. -/
def CursorInv (b : Board) : Prop :=
  b.state ≤ b.processedState ∧ b.processedState ≤ b.msgs.length

/-- Card whose code cell currently reads k (used to build concrete
boards for the concrete theorems below). -/
def mkCodeCard (k : Nat) : Card := { Card.init with code := ⟨[k], 0⟩ }

/-- Round-trip trace for the DisableZones defect: one DisableZones
message naming monster zone 2 of controller 0. -/
def c1Place : Place := ⟨0, LocationMonsterZone, 2, -1⟩

def c1Msg : AnyMsg := .information (.disableZones [⟨0, LocationMonsterZone, 2⟩])

/-- Reachable starting state: append the message, step forward once and
back once, leaving state 0 with processedState 1. -/
def c1Start : Board := runOps [.append c1Msg, .fwd, .bwd]

/-- One more forward followed by one more backward from that state. -/
def c1End : Board := runOpsFrom c1Start [.fwd, .bwd]

/-- Re-walk trace for the DisableZones forward read: two DisableZones
messages, the first naming spell zone 1 of controller 0, the second
naming nothing. -/
def c8Place : Place := ⟨0, LocationSpellZone, 1, -1⟩

def c8Msg1 : AnyMsg := .information (.disableZones [⟨0, LocationSpellZone, 1⟩])

def c8Msg2 : AnyMsg := .information (.disableZones [])

/-- Board right after the first (realtime) forward over the first
message. -/
def c8First : Board := runOps [.append c8Msg1, .append c8Msg2, .fwd]

/-- Board after processing both messages, walking back to the start and
stepping forward over the first message again (a non-realtime forward). -/
def c8Rewalk : Board :=
  runOps [.append c8Msg1, .append c8Msg2, .fwd, .fwd, .bwd, .bwd, .fwd]

/-- SwapCards failure trace: a board with one card in hand 0 and a
SwapCards message whose two places are that same hand slot. -/
def c3CardInfo : CardInfo := ⟨0, LocationHand, 0, -1, 111, 0⟩

def c3Board : Board :=
  ((Board.init.FillPile 0 LocationHand 1).board.AppendMsg
    (.information (.swapCards c3CardInfo c3CardInfo)))

/-- Games used by the GetCard theorem: one with a card in a pile slot,
one with a card in a field slot. -/
def mzPlace : Place := ⟨0, LocationMonsterZone, 0, -1⟩

def c4PileGame : Game :=
  { Game.init with hand := Game.init.hand.set 0 [mkCodeCard 9] }

def c4FieldGame : Game := { Game.init with fieldZones := [(mzPlace, mkCodeCard 9)] }

/-- Game with life points 1000 for player 0 (spec scenario 4). -/
def c5Game : Game := ((Board.init.SetLP 0 1000)).game

/-- MoveSingle same-pile trace: hand 0 holds three cards with codes 1, 2
and 3; the move goes from hand sequence 2 to hand sequence 0. -/
def c6Game : Game :=
  { Game.init with hand := Game.init.hand.set 0 [mkCodeCard 1, mkCodeCard 2, mkCodeCard 3] }

def c6From : Place := ⟨0, LocationHand, 2, -1⟩

def c6To : Place := ⟨0, LocationHand, 0, -1⟩

/-- Concrete data for the MoveSingle witness: a card in hand 0 and a
card with one counter cell in monster zone 0. -/
def cardA : Card := mkCodeCard 7

def cardB : Card := { mkCodeCard 8 with counters := [(3, ⟨[0, 2], 1⟩)] }

def c6wGame : Game :=
  { Game.init with hand := Game.init.hand.set 0 [cardA],
                   fieldZones := [(mzPlace, cardB)] }

def hand0Place : Place := ⟨0, LocationHand, 0, -1⟩

def grave0Place : Place := ⟨0, LocationGraveyard, 0, -1⟩

def mz1Place : Place := ⟨0, LocationMonsterZone, 1, -1⟩

def mz3Place : Place := ⟨0, LocationMonsterZone, 3, -1⟩

/-- Draw witness data: a 40-card face-down deck for player 0 (spec
scenario 1) and two drawn cards with codes 1234 and 5678. -/
def c7Game : Game := (Board.init.FillPile 0 LocationMainDeck 40).board.game

def c7Cards : List DrawnCard := [⟨1234⟩, ⟨5678⟩]

/-- Cursor witness data: a log with one NewPhase message. -/
def c9Msg : AnyMsg := .information (.newPhase 1)

def c9Before : Board := runOps [.append c9Msg]

def c9After : Board := c9Before.Forward.board

def c9Tail : Board := runOps [.append c9Msg, .fwd]

/-- DisableZones cursor-motion witness data: one DisableZones message,
with the non-realtime board reached by forward then backward, and the
backward argument board reached by one forward. -/
def c10Msg : AnyMsg := .information (.disableZones [⟨0, LocationMonsterZone, 4⟩])

def c10NonRealtime : Board := runOps [.append c10Msg, .fwd, .bwd]

def c10AfterFwd : Board := runOps [.append c10Msg, .fwd]

/-- C1: the round-trip property fails on the code.  From the reachable
board c1Start (state 0, processedState 1, obtained by append, forward,
backward), one forward step followed by one backward step changes the
observable value of the disabled-zone cell (0, MonsterZone, 2): it reads
false before and true after, because the non-realtime forward of
HandleDisableZones advances each cell cursor two positions (sync pass
plus unconditional append) while backward retreats it only one. -/
theorem c1_roundtrip_violated :
    dzCur c1Start c1Place = some (some false) ∧
    dzCur c1End c1Place = some (some true) ∧
    dzCur c1End c1Place ≠ dzCur c1Start c1Place := by
  decide

/-- C2: the disabledZones construction domain as written.  The key set
of the constructed map is exactly the fifteen zones of controller 0
(MonsterZone 0..6, SpellZone 0..5, PendulumZone 0..1) and contains no
controller-1 key, because the construction loop runs con < 1; the code
comment above it and the spec both require controllers 0 and 1. -/
theorem c2_disabled_zones_domain :
    disabledZonesInit.map Prod.fst =
      [⟨0, LocationMonsterZone, 0, -1⟩, ⟨0, LocationMonsterZone, 1, -1⟩,
       ⟨0, LocationMonsterZone, 2, -1⟩, ⟨0, LocationMonsterZone, 3, -1⟩,
       ⟨0, LocationMonsterZone, 4, -1⟩, ⟨0, LocationMonsterZone, 5, -1⟩,
       ⟨0, LocationMonsterZone, 6, -1⟩,
       ⟨0, LocationSpellZone, 0, -1⟩, ⟨0, LocationSpellZone, 1, -1⟩,
       ⟨0, LocationSpellZone, 2, -1⟩, ⟨0, LocationSpellZone, 3, -1⟩,
       ⟨0, LocationSpellZone, 4, -1⟩, ⟨0, LocationSpellZone, 5, -1⟩,
       ⟨0, LocationPendulumZone, 0, -1⟩, ⟨0, LocationPendulumZone, 1, -1⟩] ∧
    alFind disabledZonesInit ⟨1, LocationMonsterZone, 0, -1⟩ = none := by
  decide

/-- C3: HandleSwapCards is not atomic on error.  On a board whose hand 0
holds one card, forwarding a SwapCards message with both places equal to
that hand slot raises IllegalMove (inside MoveSingle), but only after
the handler has already erased the card from the hand: the escaped board
has an empty hand 0, so the handler mutated state before failing. -/
theorem c3_swapcards_mutates_before_failing :
    (c3Board.game.hand.get 0).length = 1 ∧
    c3Board.Forward.errOf = some .illegalMove ∧
    c3Board.Forward.board.game.hand.get 0 = [] := by
  decide

/-- C4: GetCard on an empty field slot does not fail with MissingCard;
through std::map operator[] it default-constructs a card, stores it in
fieldZones and returns it, so the board is mutated by the lookup.  For
occupied places the lookup behaves as the claim says: a pile place
returns the pile element at the sequence and an occupied field place
returns the fieldZones entry, in both cases without mutating. -/
theorem c4_getcard_default_inserts :
    Game.init.fieldZones = [] ∧
    Game.init.getCardRef mzPlace =
      .ok Card.init { Game.init with fieldZones := [(mzPlace, Card.init)] } ∧
    c4PileGame.getCardRef hand0Place = .ok (mkCodeCard 9) c4PileGame ∧
    c4FieldGame.getCardRef mzPlace = .ok (mkCodeCard 9) c4FieldGame := by
  decide

/-- C5 counterexample: with current LP 0, a DAMAGE of 3221225472 appends
1073741824 instead of the claimed max(0, 0 - 3221225472) = 0, because
the subtraction is done in 32-bit arithmetic: (int32)0 - 3221225472
wraps to the positive value 2^30. -/
theorem c5_lp_overflow_counterexample :
    (Game.init.playerLP.get 0).read 0 = 0 ∧
    lpCur (handleLpChange true true 0 .damage 3221225472 Game.init).game 0 =
      some 1073741824 ∧
    Int.toNat (max 0 ((0 : Int) - 3221225472)) = 0 ∧
    (1073741824 : Nat) ≠ 0 := by
  decide

/-- C6 counterexample: a MoveSingle between two places of the same pile
does not transfer exactly one card.  Moving hand sequence 2 onto hand
sequence 0 while hand 0 holds codes 1, 2, 3 erases the card with code 2
(the insert shifts the indices before the erase runs), so the resulting
pile is not a permutation of the original one. -/
theorem c6_same_pile_counterexample :
    (c6Game.moveSingle true true c6From c6To).errOf = none ∧
    ((c6Game.moveSingle true true c6From c6To).game.hand.get 0).map codeCur =
      [some 3, some 1, some 3] ∧
    ¬ List.Perm (((c6Game.moveSingle true true c6From c6To).game.hand.get 0).map codeCur)
      ((c6Game.hand.get 0).map codeCur) := by
  decide

/-- C8: the DisableZones forward step does not always make the listed
cells read true.  The first (realtime) forward over a message naming
spell zone 1 does make that cell read true, but after walking both
messages forward, walking back, and re-walking the first message forward
(a non-realtime forward), the cell reads false: the sync-plus-append
double step leaves the cursor on a stale history element. -/
theorem c8_forward_read_wrong_on_rewalk :
    dzCur c8First c8Place = some (some true) ∧
    dzCur c8Rewalk c8Place = some (some false) ∧
    dzCur c8Rewalk c8Place ≠ some (some true) := by
  decide

/-- The handlers never touch the cursor fields: each single operation
preserves the cursor-state invariant, whether or not the dispatched
handler throws. -/
theorem cursorInv_step (b : Board) (op : Op) (h : CursorInv b) : CursorInv (stepOp b op) := by
  obtain ⟨h1, h2⟩ := h
  cases op with
  | append m =>
    refine ⟨by simpa [stepOp, Board.AppendMsg] using h1, ?_⟩
    simp only [stepOp, Board.AppendMsg, List.length_append, List.length_cons, List.length_nil]
    omega
  | fwd =>
    by_cases hg : b.msgs.length = 0 ∨ b.state > b.msgs.length - 1
    · simp only [stepOp, Board.Forward, if_pos hg, BRes.board]
      exact ⟨h1, h2⟩
    · have hsl : b.state < b.msgs.length := by omega
      cases hr : interpretMsg (decide (b.state = b.processedState)) true b.state
          (b.msgs.getD b.state AnyMsg.other) b.game with
      | ok g =>
        simp only [stepOp, Board.Forward, if_neg hg, hr, BRes.board, CursorInv,
          decide_eq_true_eq]
        split <;> omega
      | err e g =>
        simp only [stepOp, Board.Forward, if_neg hg, hr, BRes.board, CursorInv,
          decide_eq_true_eq]
        split <;> omega
  | bwd =>
    by_cases h0 : b.state = 0
    · simp only [stepOp, Board.Backward, if_pos h0, BRes.board]
      exact ⟨h1, h2⟩
    · cases hr : interpretMsg false false (b.state - 1)
          (b.msgs.getD (b.state - 1) AnyMsg.other) b.game with
      | ok g =>
        simp only [stepOp, Board.Backward, if_neg h0, hr, BRes.board, CursorInv]
        omega
      | err e g =>
        simp only [stepOp, Board.Backward, if_neg h0, hr, BRes.board, CursorInv]
        omega

/-- The cursor-state invariant holds along any run of operations. -/
theorem cursorInv_runOpsFrom (ops : List Op) :
    ∀ b : Board, CursorInv b → CursorInv (runOpsFrom b ops) := by
  induction ops with
  | nil => intro b h; exact h
  | cons op t ih =>
    intro b h
    exact ih (stepOp b op) (cursorInv_step b op h)

/-- C9: cursor invariants.  On any board reached from the initial board
by appends, forwards and backwards: state is at most processedState,
processedState is at most the log length (hence 0 <= state <= len msgs),
no single further operation decreases processedState, Forward is a no-op
exactly under its guard and otherwise (when its handler does not throw)
increments state by one, incrementing processedState exactly when state
equalled processedState at entry, and Backward is a no-op at state 0 and
otherwise decrements state by one (whether or not its handler throws). -/
theorem c9_cursor_invariants (ops : List Op) (b : Board) (hb : b = runOps ops)
    (op : Op) (b1 : Board) :
    (b.state ≤ b.processedState ∧ b.processedState ≤ b.msgs.length ∧
      b.state ≤ b.msgs.length) ∧
    b.processedState ≤ (stepOp b op).processedState ∧
    (b.msgs.length = 0 ∨ b.state > b.msgs.length - 1 → b.Forward = .ok b) ∧
    (b.Forward = .ok b1 → b.msgs.length ≠ 0 → ¬(b.state > b.msgs.length - 1) →
      b1.state = b.state + 1 ∧
      b1.processedState =
        (if b.state = b.processedState then b.processedState + 1 else b.processedState)) ∧
    (b.state = 0 → b.Backward = .ok b) ∧
    b.Backward.board.state = b.state - 1 := by
  have hinv : CursorInv b := by
    rw [hb]
    exact cursorInv_runOpsFrom ops Board.init ⟨Nat.le_refl 0, Nat.le_refl 0⟩
  obtain ⟨h1, h2⟩ := hinv
  refine ⟨⟨h1, h2, Nat.le_trans h1 h2⟩, ?_, ?_, ?_, ?_, ?_⟩
  · cases op with
    | append m => simp [stepOp, Board.AppendMsg]
    | fwd =>
      by_cases hg : b.msgs.length = 0 ∨ b.state > b.msgs.length - 1
      · simp only [stepOp, Board.Forward, if_pos hg, BRes.board]
        exact Nat.le_refl _
      · cases hr : interpretMsg (decide (b.state = b.processedState)) true b.state
            (b.msgs.getD b.state AnyMsg.other) b.game with
        | ok g =>
          simp only [stepOp, Board.Forward, if_neg hg, hr, BRes.board, decide_eq_true_eq]
          split <;> omega
        | err e g =>
          simp only [stepOp, Board.Forward, if_neg hg, hr, BRes.board, decide_eq_true_eq]
          split <;> omega
    | bwd =>
      by_cases h0 : b.state = 0
      · simp only [stepOp, Board.Backward, if_pos h0, BRes.board]
        exact Nat.le_refl _
      · cases hr : interpretMsg false false (b.state - 1)
            (b.msgs.getD (b.state - 1) AnyMsg.other) b.game with
        | ok g =>
          simp only [stepOp, Board.Backward, if_neg h0, hr, BRes.board]
          exact Nat.le_refl _
        | err e g =>
          simp only [stepOp, Board.Backward, if_neg h0, hr, BRes.board]
          exact Nat.le_refl _
  · intro hg
    simp only [Board.Forward, if_pos hg]
  · intro hok hne hle
    have hg : ¬(b.msgs.length = 0 ∨ b.state > b.msgs.length - 1) := by
      intro hc
      rcases hc with hc | hc
      · exact hne hc
      · exact hle hc
    simp only [Board.Forward, if_neg hg] at hok
    cases hr : interpretMsg (decide (b.state = b.processedState)) true b.state
        (b.msgs.getD b.state AnyMsg.other) b.game with
    | ok g =>
      rw [hr] at hok
      simp only [BRes.ok.injEq] at hok
      subst hok
      refine ⟨rfl, ?_⟩
      by_cases hrt : b.state = b.processedState <;> simp [hrt]
    | err e g =>
      rw [hr] at hok
      exact absurd hok (by simp)
  · intro h0
    simp only [Board.Backward, if_pos h0]
  · by_cases h0 : b.state = 0
    · simp [Board.Backward, h0, BRes.board]
    · cases hr : interpretMsg false false (b.state - 1)
          (b.msgs.getD (b.state - 1) AnyMsg.other) b.game with
      | ok g => simp only [Board.Backward, if_neg h0, hr, BRes.board]
      | err e g => simp only [Board.Backward, if_neg h0, hr, BRes.board]

/-- Witness for c9_cursor_invariants: a log of one NewPhase message,
instantiated once at the fully stepped board (forward is a guard no-op
there, backward decrements) and once at the not-yet-stepped board
(forward increments both cursors, backward is a no-op at state 0). -/
theorem c9_cursor_invariants_witness :
    (c9Tail.state ≤ c9Tail.processedState ∧ c9Tail.processedState ≤ c9Tail.msgs.length ∧
      c9Tail.state ≤ c9Tail.msgs.length) ∧
    c9Tail.Forward = .ok c9Tail ∧
    c9After.state = c9Before.state + 1 ∧
    c9After.processedState = c9Before.processedState + 1 ∧
    c9Before.Backward = .ok c9Before ∧
    c9Tail.Backward.board.state = c9Tail.state - 1 := by
  have hA := c9_cursor_invariants [.append c9Msg, .fwd] c9Tail rfl .fwd c9Tail
  have hB := c9_cursor_invariants [.append c9Msg] c9Before rfl .fwd c9After
  have hBfwd := hB.2.2.2.1 (by decide) (by decide) (by decide)
  have hc : c9Before.state = c9Before.processedState := by decide
  refine ⟨hA.1, hA.2.2.1 (Or.inr (by decide)), hBfwd.1, ?_,
    hB.2.2.2.2.1 (by decide), hA.2.2.2.2.2⟩
  have h := hBfwd.2
  rw [if_pos hc] at h
  exact h

/-- C10: forwarding a DisableZones message while re-walking history
(state < processedState, so not realtime) advances every disabled-zone
cell cursor two positions - one sync step that does not append, then one
step that unconditionally appends, growing the history by one element -
while a single backward step over a DisableZones message retreats each
cursor exactly one position and leaves the history unchanged. -/
theorem c10_disable_zones_rewalk_double_step (b c : Board) (places places2 : List PBPlace)
    (h1 : b.state < b.processedState)
    (h2 : b.state < b.msgs.length)
    (h3 : b.msgs.getD b.state .other = .information (.disableZones places))
    (h4 : c.state ≠ 0)
    (h5 : c.msgs.getD (c.state - 1) .other = .information (.disableZones places2)) :
    b.Forward = .ok
      { game := { b.game with disabledZones := b.game.disabledZones.map (fun z =>
          (z.1, ⟨z.2.l ++ [decide (z.1 ∈ places.map PlaceFromProtobufPlace)],
            z.2.it + 1 + 1⟩)) },
        realtime := false, advancing := true, state := b.state + 1,
        processedState := b.processedState, msgs := b.msgs } ∧
    c.Backward = .ok
      { game := { c.game with disabledZones := c.game.disabledZones.map (fun z =>
          (z.1, ⟨z.2.l, z.2.it - 1⟩)) },
        realtime := false, advancing := false, state := c.state - 1,
        processedState := c.processedState, msgs := c.msgs } := by
  constructor
  · have hg : ¬(b.msgs.length = 0 ∨ b.state > b.msgs.length - 1) := by omega
    have hrt : ¬(b.state = b.processedState) := by omega
    have hd : decide (b.state = b.processedState) = false := by simp [hrt]
    simp only [Board.Forward, if_neg hg, h3, interpretMsg, handleDisableZones, hd,
      Bool.false_eq_true, if_false, if_neg hrt, List.map_map]
    simp [Function.comp, Sequential.AddOrNext]
  · simp only [Board.Backward, if_neg h4, h5, interpretMsg, handleDisableZones,
      Bool.false_eq_true, if_false]
    simp [Sequential.Prev]

/-- Witness for c10_disable_zones_rewalk_double_step: the board reached
by append, forward, backward over one DisableZones message (a
non-realtime position) and the board reached by append, forward (for the
backward half). -/
theorem c10_disable_zones_rewalk_witness :
    c10NonRealtime.Forward = .ok
      { game := { c10NonRealtime.game with disabledZones :=
          c10NonRealtime.game.disabledZones.map (fun z =>
          (z.1, ⟨z.2.l ++ [decide (z.1 ∈
            ([⟨0, LocationMonsterZone, 4⟩] : List PBPlace).map PlaceFromProtobufPlace)],
            z.2.it + 1 + 1⟩)) },
        realtime := false, advancing := true, state := c10NonRealtime.state + 1,
        processedState := c10NonRealtime.processedState, msgs := c10NonRealtime.msgs } ∧
    c10AfterFwd.Backward = .ok
      { game := { c10AfterFwd.game with disabledZones :=
          c10AfterFwd.game.disabledZones.map (fun z => (z.1, ⟨z.2.l, z.2.it - 1⟩)) },
        realtime := false, advancing := false, state := c10AfterFwd.state - 1,
        processedState := c10AfterFwd.processedState, msgs := c10AfterFwd.msgs } :=
  c10_disable_zones_rewalk_double_step c10NonRealtime c10AfterFwd
    [⟨0, LocationMonsterZone, 4⟩] [⟨0, LocationMonsterZone, 4⟩]
    (by decide) (by decide) (by decide) (by decide) (by decide)

/-- The LpChange DAMAGE and PAY value computation: when both the current
LP and the amount are below 2^31, the 32-bit clamp computed by the
handler equals truncated natural subtraction, which is exactly
max(0, current - amount). -/
theorem lpClampValue (cur amount : Nat) (hc : cur < 2147483648) (ha : amount < 2147483648) :
    (if (cur % U32 + (U32 - amount % U32)) % U32 < 2147483648
      then (cur % U32 + (U32 - amount % U32)) % U32 else 0) = cur - amount := by
  simp only [U32]
  by_cases h : (cur % 4294967296 + (4294967296 - amount % 4294967296)) % 4294967296
      < 2147483648
  · rw [if_pos h]
    omega
  · rw [if_neg h]
    omega

/-- C5 (amended): stepping an LpChange forward whose current LP and
amount are both below 2^31 appends max(0, current - amount) (written as
truncated Nat subtraction, hence always nonnegative) for DAMAGE and PAY,
current + amount for RECOVER and amount for BECOME; stepping any
LpChange backward retreats the LP cell to its prior value.  Without the
2^31 bound the DAMAGE/PAY value is instead the zero-clamp of the 32-bit
wrapped difference (see the counterexample). -/
theorem c5_lp_change_bounded (rt : Bool) (g g2 : Game) (player : Nat) (ty ty2 : LpOp)
    (amount : Nat)
    (hcur : (g.playerLP.get player).read 0 < 2147483648)
    (ham : amount < 2147483648) :
    handleLpChange rt true player ty amount g = .ok
      { g with playerLP := g.playerLP.set player ((g.playerLP.get player).AddOrNext rt
          (match ty with
            | .damage | .pay => (g.playerLP.get player).read 0 - amount
            | .recover => (g.playerLP.get player).read 0 + amount
            | .become => amount)) } ∧
    handleLpChange rt false player ty2 amount g2 = .ok
      { g2 with playerLP := g2.playerLP.set player ((g2.playerLP.get player).Prev) } := by
  constructor
  · cases ty with
    | damage =>
      simp only [handleLpChange, if_true]
      rw [lpClampValue _ _ hcur ham]
    | pay =>
      simp only [handleLpChange, if_true]
      rw [lpClampValue _ _ hcur ham]
    | recover =>
      simp only [handleLpChange, if_true]
      rw [Nat.mod_eq_of_lt (by simp only [U32]; omega)]
    | become =>
      simp only [handleLpChange, if_true]
      rw [Nat.mod_eq_of_lt (by simp only [U32]; omega)]
  · simp [handleLpChange]

/-- Witness for c5_lp_change_bounded: spec scenario 4, LP 1000 and a
DAMAGE of 4000, where the appended value 1000 - 4000 truncates to 0. -/
theorem c5_lp_change_bounded_witness :
    handleLpChange true true 0 .damage 4000 c5Game = .ok
      { c5Game with playerLP := c5Game.playerLP.set 0 ((c5Game.playerLP.get 0).AddOrNext true
          ((c5Game.playerLP.get 0).read 0 - 4000)) } ∧
    handleLpChange true false 0 .damage 4000 c5Game = .ok
      { c5Game with playerLP := c5Game.playerLP.set 0 ((c5Game.playerLP.get 0).Prev) } :=
  c5_lp_change_bounded true c5Game c5Game 0 .damage .damage 4000 (by decide) (by decide)

/-- Inserting at an index within bounds grows a list by one element. -/
theorem insertAt_length {α : Type} (c : α) :
    ∀ (l : List α) (i : Nat), i ≤ l.length → (insertAt l i c).length = l.length + 1 := by
  intro l
  induction l with
  | nil =>
    intro i h
    have hi : i = 0 := by simpa using h
    subst hi
    rfl
  | cons x t ih =>
    intro i h
    cases i with
    | zero => rfl
    | succ j =>
      simp only [insertAt, List.length_cons]
      rw [ih j (by simpa using h)]

/-- Erasing at an index within bounds shrinks a list by one element. -/
theorem eraseAt_length {α : Type} :
    ∀ (l : List α) (i : Nat), i < l.length → (eraseAt l i).length = l.length - 1 := by
  intro l
  induction l with
  | nil =>
    intro i h
    exact absurd h (by simp)
  | cons x t ih =>
    intro i h
    cases i with
    | zero => simp [eraseAt]
    | succ j =>
      have hj : j < t.length := by simpa using h
      simp only [eraseAt, List.length_cons]
      rw [ih j hj]
      omega

/-- C6 (amended): MoveSingle(from, to) fails with IllegalMove exactly
when from = to, leaving the game untouched; ClearAllCounters steps every
counter cell (AddOrNext(realtime, 0) when advancing, Prev otherwise) and
never touches the code or position cells; and when the two places do not
address the same pile, a successful MoveSingle transfers exactly one
card between the containers selected by the pile/field classification:
the source container loses the element at the source coordinate, the
target container gains it at the target coordinate, counters of the
moved card are stepped exactly when one endpoint is a pile and the other
a field place, and nothing else changes.  (For two places inside one
pile the insert-then-erase sequence of the source corrupts the pile; see
the counterexample.) -/
theorem c6_move_single_transfer (g : Game) (adv rt : Bool) (fr toPl : Place)
    (src dst : List Card) :
    (g.moveSingle adv rt fr fr = .err .illegalMove g) ∧
    (∀ c : Card, (clearAllCounters adv rt c).code = c.code ∧
      (clearAllCounters adv rt c).pos = c.pos ∧
      (clearAllCounters adv rt c).counters = c.counters.map (fun kv =>
        (kv.1, if adv then kv.2.AddOrNext rt 0 else kv.2.Prev))) ∧
    (fr ≠ toPl → IsPilePlace fr = true → IsPilePlace toPl = true →
      g.getPile fr.controller fr.location = .ok src →
      g.getPile toPl.controller toPl.location = .ok dst →
      ¬(fr.controller = toPl.controller ∧ fr.location = toPl.location) →
      g.moveSingle adv rt fr toPl = .ok
        ((g.setPile toPl.controller toPl.location
            (insertAt dst toPl.sequence (src.getD fr.sequence Card.init))).setPile
          fr.controller fr.location (eraseAt src fr.sequence)) ∧
      (fr.sequence < src.length → toPl.sequence ≤ dst.length →
        (eraseAt src fr.sequence).length = src.length - 1 ∧
        (insertAt dst toPl.sequence (src.getD fr.sequence Card.init)).length
          = dst.length + 1)) ∧
    (fr ≠ toPl → IsPilePlace fr = true → IsPilePlace toPl = false →
      g.getPile fr.controller fr.location = .ok src →
      g.moveSingle adv rt fr toPl = .ok
        { g.setPile fr.controller fr.location (eraseAt src fr.sequence) with
          fieldZones := alAssign g.fieldZones toPl (clearAllCounters adv rt (src.getD fr.sequence Card.init)) }) ∧
    (fr ≠ toPl → IsPilePlace fr = false → IsPilePlace toPl = true →
      g.getPile toPl.controller toPl.location = .ok dst →
      g.moveSingle adv rt fr toPl = .ok
        { g.setPile toPl.controller toPl.location
            (insertAt dst toPl.sequence (clearAllCounters adv rt
              ((alFind g.fieldZones fr).getD Card.init))) with
          fieldZones := alErase g.fieldZones fr }) ∧
    (fr ≠ toPl → IsPilePlace fr = false → IsPilePlace toPl = false →
      g.moveSingle adv rt fr toPl = .ok
        { g with fieldZones := alErase (alAssign g.fieldZones toPl ((alFind g.fieldZones fr).getD Card.init)) fr }) := by
  refine ⟨?_, ?_, ?_, ?_, ?_, ?_⟩
  · simp [Game.moveSingle]
  · intro c
    exact ⟨rfl, rfl, rfl⟩
  · intro hne hpf hpt hsrc hdst hsame
    constructor
    · simp only [Game.moveSingle, if_neg hne, hpf, hpt, hsrc, hdst, if_neg hsame, if_true]
    · intro hfs hts
      exact ⟨eraseAt_length src fr.sequence hfs,
        insertAt_length (src.getD fr.sequence Card.init) dst toPl.sequence hts⟩
  · intro hne hpf hpt hsrc
    simp only [Game.moveSingle, if_neg hne, hpf, hpt, hsrc, if_true, Bool.false_eq_true,
      if_false]
  · intro hne hpf hpt hdst
    simp only [Game.moveSingle, if_neg hne, hpf, hpt, hdst, if_true, Bool.false_eq_true,
      if_false]
  · intro hne hpf hpt
    simp only [Game.moveSingle, if_neg hne, hpf, hpt, Bool.false_eq_true, if_false]

/-- Witness for c6_move_single_transfer: a game with one card in hand 0
and one card (carrying a counter cell) in monster zone 0, exercising the
identity failure, the counter characterisation and all four transfer
combinations. -/
theorem c6_move_single_transfer_witness :
    c6wGame.moveSingle true true hand0Place hand0Place = .err .illegalMove c6wGame ∧
    (clearAllCounters true true cardB).code = cardB.code ∧
    (clearAllCounters true true cardB).counters = cardB.counters.map (fun kv =>
      (kv.1, if true then kv.2.AddOrNext true 0 else kv.2.Prev)) ∧
    c6wGame.moveSingle true true hand0Place grave0Place = .ok
      ((c6wGame.setPile grave0Place.controller grave0Place.location
          (insertAt [] grave0Place.sequence (([cardA] : List Card).getD hand0Place.sequence
            Card.init))).setPile
        hand0Place.controller hand0Place.location (eraseAt [cardA] hand0Place.sequence)) ∧
    (eraseAt ([cardA] : List Card) hand0Place.sequence).length = 0 ∧
    c6wGame.moveSingle true true hand0Place mz1Place = .ok
      { c6wGame.setPile hand0Place.controller hand0Place.location
          (eraseAt [cardA] hand0Place.sequence) with
        fieldZones := alAssign c6wGame.fieldZones mz1Place (clearAllCounters true true (([cardA] : List Card).getD hand0Place.sequence Card.init)) } ∧
    c6wGame.moveSingle true true mzPlace grave0Place = .ok
      { c6wGame.setPile grave0Place.controller grave0Place.location
          (insertAt [] grave0Place.sequence (clearAllCounters true true
            ((alFind c6wGame.fieldZones mzPlace).getD Card.init))) with
        fieldZones := alErase c6wGame.fieldZones mzPlace } ∧
    c6wGame.moveSingle true true mzPlace mz3Place = .ok
      { c6wGame with fieldZones := alErase (alAssign c6wGame.fieldZones mz3Place ((alFind c6wGame.fieldZones mzPlace).getD Card.init)) mzPlace } := by
  have h1 := c6_move_single_transfer c6wGame true true hand0Place grave0Place [cardA] []
  have h2 := c6_move_single_transfer c6wGame true true hand0Place mz1Place [cardA] []
  have h3 := c6_move_single_transfer c6wGame true true mzPlace grave0Place [] []
  have h4 := c6_move_single_transfer c6wGame true true mzPlace mz3Place [] []
  have hpp := h1.2.2.1 (by decide) (by decide) (by decide) (by decide) (by decide) (by decide)
  refine ⟨h1.1, (h1.2.1 cardB).1, (h1.2.1 cardB).2.2, hpp.1,
    (hpp.2 (by decide) (by decide)).1, ?_, ?_, ?_⟩
  · exact h2.2.2.2.1 (by decide) (by decide) (by decide) (by decide)
  · exact h3.2.2.2.2.1 (by decide) (by decide) (by decide) (by decide)
  · exact h4.2.2.2.2.2 (by decide) (by decide) (by decide)

/-- mapWithIndex preserves length. -/
theorem mapWithIndex_length {α β : Type} :
    ∀ (l : List α) (f : Nat → α → β), (mapWithIndex f l).length = l.length := by
  intro l
  induction l with
  | nil => intro f; rfl
  | cons a t ih =>
    intro f
    simp only [mapWithIndex, List.length_cons, ih]

/-- Indexed mutation at an offset past a prefix acts inside the suffix. -/
theorem modifyAt_append {α : Type} :
    ∀ (P M : List α) (i : Nat) (f : α → α),
      modifyAt (P ++ M) (P.length + i) f = P ++ modifyAt M i f := by
  intro P
  induction P with
  | nil =>
    intro M i f
    simp only [List.nil_append, List.length_nil, Nat.zero_add]
  | cons x t ih =>
    intro M i f
    have hix : t.length + 1 + i = (t.length + i) + 1 := by omega
    simp only [List.cons_append, List.length_cons, hix, modifyAt]
    rw [ih M i f]

/-- The forward code-appending loop of HandleDraw: folding mutations at
offsets prefix-length + i over range n rewrites exactly the n-element
suffix, elementwise with its index. -/
theorem foldl_modifyAt_offset {α : Type} :
    ∀ (M P : List α) (app : Nat → α → α),
      (List.range M.length).foldl (fun h i => modifyAt h (P.length + i) (app i)) (P ++ M)
        = P ++ mapWithIndex app M := by
  intro M
  induction M with
  | nil => intro P app; simp [mapWithIndex]
  | cons m t ih =>
    intro P app
    rw [List.length_cons, List.range_succ_eq_map, List.foldl_cons]
    have h0 : modifyAt (P ++ m :: t) (P.length + 0) (app 0) = (P ++ [app 0 m]) ++ t := by
      rw [modifyAt_append P (m :: t) 0 (app 0)]
      simp only [modifyAt]
      rw [List.append_cons]
    rw [h0, List.foldl_map]
    have hfun : (fun (h : List α) (i : Nat) =>
          modifyAt h (P.length + Nat.succ i) (app (Nat.succ i)))
        = fun (h : List α) (i : Nat) =>
          modifyAt h ((P ++ [app 0 m]).length + i) ((fun j => app (j + 1)) i) := by
      funext h i
      have hix : P.length + Nat.succ i = (P ++ [app 0 m]).length + i := by
        simp only [List.length_append, List.length_cons, List.length_nil]
        omega
      rw [hix]
    rw [hfun, ih (P ++ [app 0 m]) (fun j => app (j + 1))]
    simp [mapWithIndex, List.append_assoc]

/-- The backward code-retreating loop of HandleDraw: folding mutations
at descending offsets covering the middle segment maps that segment
elementwise. -/
theorem foldl_modifyAt_rev {α : Type} (f : α → α) :
    ∀ (M P S : List α),
      (List.range M.length).foldl (fun h i => modifyAt h (P.length + M.length - 1 - i) f)
        (P ++ (M ++ S)) = P ++ (M.map f ++ S) := by
  intro M
  induction M using List.reverseRecOn with
  | nil =>
    intro P S
    simp
  | append_singleton l a ih =>
    intro P S
    have hlen : (l ++ [a]).length = l.length + 1 := by simp
    rw [hlen, List.range_succ_eq_map, List.foldl_cons]
    have hre : P ++ ((l ++ [a]) ++ S) = (P ++ l) ++ (a :: S) := by
      simp [List.append_assoc]
    have h0 : modifyAt (P ++ ((l ++ [a]) ++ S)) (P.length + (l.length + 1) - 1 - 0) f
        = (P ++ l) ++ (f a :: S) := by
      rw [hre]
      have hix : P.length + (l.length + 1) - 1 - 0 = (P ++ l).length + 0 := by
        simp only [List.length_append]
        omega
      rw [hix, modifyAt_append (P ++ l) (a :: S) 0 f]
      simp only [modifyAt]
    rw [h0, List.foldl_map]
    have hfun : (fun (h : List α) (i : Nat) =>
          modifyAt h (P.length + (l.length + 1) - 1 - Nat.succ i) f)
        = fun (h : List α) (i : Nat) => modifyAt h (P.length + l.length - 1 - i) f := by
      funext h i
      have hix : P.length + (l.length + 1) - 1 - Nat.succ i = P.length + l.length - 1 - i := by
        omega
      rw [hix]
    have hre2 : (P ++ l) ++ (f a :: S) = P ++ (l ++ (f a :: S)) := by
      simp [List.append_assoc]
    rw [hfun, hre2, ih P (f a :: S)]
    simp [List.map_append, List.append_assoc]

/-- Length-parameterised restatement of foldl_modifyAt_offset, matching
the loop bound n = len(cards) of the handler. -/
theorem foldl_modifyAt_offset_n {α : Type} (n : Nat) (M P : List α) (app : Nat → α → α)
    (h : M.length = n) :
    (List.range n).foldl (fun h i => modifyAt h (P.length + i) (app i)) (P ++ M)
      = P ++ mapWithIndex app M := by
  subst h
  exact foldl_modifyAt_offset M P app

/-- Length-parameterised restatement of foldl_modifyAt_rev with an
empty suffix. -/
theorem foldl_modifyAt_rev_n {α : Type} (f : α → α) (n : Nat) (M P : List α)
    (h : M.length = n) :
    (List.range n).foldl (fun h i => modifyAt h (P.length + n - 1 - i) f) (P ++ M)
      = P ++ M.map f := by
  subst h
  have h2 := foldl_modifyAt_rev f M P []
  rw [List.append_nil, List.append_nil] at h2
  exact h2

/-- Observation map over an indexed map: if the observation of every
transformed element equals a second observation of the original, the
observations of the whole lists agree. -/
theorem mapWithIndex_map_obs {α β : Type} :
    ∀ (l : List α) (f : Nat → α → α) (obs obs2 : α → β),
      (∀ i c, c ∈ l → obs (f i c) = obs2 c) →
      (mapWithIndex f l).map obs = l.map obs2 := by
  intro l
  induction l with
  | nil => intro f obs obs2 h; rfl
  | cons a t ih =>
    intro f obs obs2 h
    simp only [mapWithIndex, List.map_cons]
    rw [h 0 a (List.mem_cons_self a t), ih (fun i => f (i + 1)) obs obs2
      (fun i c hc => h (i + 1) c (List.mem_cons_of_mem a hc))]

/-- AddOrNext followed by Prev restores the observed value of a cell
whose cursor is in bounds (the append lands past the cursor). -/
theorem cur_addOrNext_prev {T : Type} (rt : Bool) (v : T) (s : Sequential T)
    (h : s.it < s.l.length) :
    ((s.AddOrNext rt v).Prev).cur = s.cur := by
  cases rt with
  | false => simp [Sequential.AddOrNext, Sequential.Prev, Sequential.cur]
  | true =>
    simp only [Sequential.AddOrNext, Sequential.Prev, Sequential.cur, Nat.add_sub_cancel,
      if_true]
    exact List.get?_append h

/-- PerPlayer read-back of a just-written slot. -/
theorem PerPlayer.get_set {α : Type} (from_ : PerPlayer α) (i : Nat) (v : α) :
    (from_.set i v).get i = v := by
  by_cases h : i = 0 <;> simp [PerPlayer.get, PerPlayer.set, h]

/-- HandleDraw forward: the deck loses its top n cards, the hand gains
them in reverse deck order at its tail, and the i-th of those hand cells
gets the i-th revealed code appended. -/
theorem handleDraw_forward (g : Game) (rt : Bool) (player : Nat) (cards : List DrawnCard)
    (hn : cards.length ≤ (g.deck.get player).length) :
    handleDraw rt true player cards g = .ok
      { g with
        deck := g.deck.set player ((g.deck.get player).take
          ((g.deck.get player).length - cards.length)),
        hand := g.hand.set player ((g.hand.get player) ++
          mapWithIndex
            (fun i c => { c with code := c.code.AddOrNext rt ((cards.getD i ⟨0⟩).code) })
            (((g.deck.get player).drop
              ((g.deck.get player).length - cards.length)).reverse)) } := by
  have hmlen : (((g.deck.get player).drop
      ((g.deck.get player).length - cards.length)).reverse).length = cards.length := by
    rw [List.length_reverse, List.length_drop]
    omega
  have hfold := foldl_modifyAt_offset_n cards.length
    (((g.deck.get player).drop ((g.deck.get player).length - cards.length)).reverse)
    (g.hand.get player)
    (fun i c => { c with code := c.code.AddOrNext rt ((cards.getD i ⟨0⟩).code) })
    hmlen
  simp only [handleDraw, if_true]
  rw [hfold]

/-- HandleDraw backward on a hand that splits as a prefix H plus a tail
M of length n: the tail cells retreat their code cells, move back onto
the deck top in reverse order, and the hand shrinks back to H. -/
theorem handleDraw_backward (g : Game) (rt : Bool) (player : Nat) (cards : List DrawnCard)
    (H M : List Card) (hh : g.hand.get player = H ++ M) (hm : M.length = cards.length) :
    handleDraw rt false player cards g = .ok
      { g with
        deck := g.deck.set player (g.deck.get player ++
          (M.map (fun c => { c with code := c.code.Prev })).reverse),
        hand := g.hand.set player H } := by
  have hHl : H.length = (H ++ M).length - cards.length := by
    simp only [List.length_append]
    omega
  have hstep : (fun (h : List Card) (i : Nat) =>
        modifyAt h ((H ++ M).length - i - 1) (fun c => { c with code := c.code.Prev }))
      = fun (h : List Card) (i : Nat) =>
        modifyAt h (H.length + cards.length - 1 - i) (fun c => { c with code := c.code.Prev }) := by
    funext h i
    have hix : (H ++ M).length - i - 1 = H.length + cards.length - 1 - i := by
      simp only [List.length_append]
      omega
    rw [hix]
  have hfold := foldl_modifyAt_rev_n (fun c => { c with code := c.code.Prev })
    cards.length M H hm
  simp only [handleDraw, Bool.false_eq_true, if_false, hh]
  rw [hstep, hfold]
  rw [List.take_left' hHl, List.drop_left' hHl]

/-- C7: stepping Draw(player, cards) forward moves the top n = len cards
cards of the deck to the hand tail (deck shrinks by n, hand grows by n)
and appends cards[i].code to the code cell of the card now at hand
position handSize + i; stepping it backward from there retreats those
code cells, moves the same n cards back to the deck top, restores the
hand exactly and the deck to the same length with every card reading its
original code. -/
theorem c7_draw_forward_backward (g : Game) (rt : Bool) (player : Nat)
    (cards : List DrawnCard)
    (hp : player < 2)
    (hn : cards.length ≤ (g.deck.get player).length)
    (hcur : ∀ c ∈ g.deck.get player, c.code.it < c.code.l.length) :
    ∃ g' g'',
      handleDraw rt true player cards g = .ok g' ∧
      g'.deck.get player =
        (g.deck.get player).take ((g.deck.get player).length - cards.length) ∧
      g'.hand.get player = g.hand.get player ++
        mapWithIndex
          (fun i c => { c with code := c.code.AddOrNext rt ((cards.getD i ⟨0⟩).code) })
          (((g.deck.get player).drop
            ((g.deck.get player).length - cards.length)).reverse) ∧
      (g'.deck.get player).length = (g.deck.get player).length - cards.length ∧
      (g'.hand.get player).length = (g.hand.get player).length + cards.length ∧
      handleDraw rt false player cards g' = .ok g'' ∧
      g''.hand.get player = g.hand.get player ∧
      (g''.deck.get player).length = (g.deck.get player).length ∧
      (g''.deck.get player).map codeCur = (g.deck.get player).map codeCur := by
  have hmlen : (((g.deck.get player).drop
      ((g.deck.get player).length - cards.length)).reverse).length = cards.length := by
    rw [List.length_reverse, List.length_drop]
    omega
  have hfwd := handleDraw_forward g rt player cards hn
  set M := mapWithIndex
    (fun i c => { c with code := c.code.AddOrNext rt ((cards.getD i ⟨0⟩).code) })
    (((g.deck.get player).drop ((g.deck.get player).length - cards.length)).reverse)
    with hM
  set gF : Game := { g with
    deck := g.deck.set player ((g.deck.get player).take
      ((g.deck.get player).length - cards.length)),
    hand := g.hand.set player ((g.hand.get player) ++ M) } with hgF
  have hMlen : M.length = cards.length := by
    rw [hM, mapWithIndex_length]
    exact hmlen
  have hhF : gF.hand.get player = (g.hand.get player) ++ M := by
    rw [hgF]
    exact PerPlayer.get_set _ _ _
  have hdF : gF.deck.get player = (g.deck.get player).take
      ((g.deck.get player).length - cards.length) := by
    rw [hgF]
    exact PerPlayer.get_set _ _ _
  have hbwd := handleDraw_backward gF rt player cards (g.hand.get player) M hhF hMlen
  refine ⟨gF, _, hfwd, hdF, hhF, ?_, ?_, hbwd, ?_, ?_, ?_⟩
  · rw [hdF, List.length_take]
    omega
  · rw [hhF, List.length_append, hMlen]
  · exact PerPlayer.get_set _ _ _
  · rw [PerPlayer.get_set, List.length_append, hdF, List.length_take,
      List.length_reverse, List.length_map, hMlen]
    omega
  · rw [PerPlayer.get_set, hdF, List.map_append]
    have hobs : (M.map (fun c => { c with code := c.code.Prev })).map codeCur
        = (((g.deck.get player).drop
            ((g.deck.get player).length - cards.length)).reverse).map codeCur := by
      rw [hM, List.map_map]
      refine mapWithIndex_map_obs _ _ _ _ ?_
      intro i c hc
      have hmem : c ∈ g.deck.get player := by
        rw [List.mem_reverse] at hc
        exact List.mem_of_mem_drop hc
      show ((c.code.AddOrNext rt ((cards.getD i ⟨0⟩).code)).Prev).cur = codeCur c
      exact cur_addOrNext_prev rt _ c.code (hcur c hmem)
    rw [List.map_reverse, hobs, List.map_reverse, List.reverse_reverse,
      ← List.map_append, List.take_append_drop]

/-- Witness for c7_draw_forward_backward: spec scenario 1, a 40-card
face-down deck for player 0 and a Draw of two cards with codes 1234 and
5678 (deck 40 to 38 and back, hand 0 to 2 to 0). -/
theorem c7_draw_forward_backward_witness :
    ∃ g' g'',
      handleDraw true true 0 c7Cards c7Game = .ok g' ∧
      g'.deck.get 0 =
        (c7Game.deck.get 0).take ((c7Game.deck.get 0).length - c7Cards.length) ∧
      g'.hand.get 0 = c7Game.hand.get 0 ++
        mapWithIndex
          (fun i c => { c with code := c.code.AddOrNext true ((c7Cards.getD i ⟨0⟩).code) })
          (((c7Game.deck.get 0).drop
            ((c7Game.deck.get 0).length - c7Cards.length)).reverse) ∧
      (g'.deck.get 0).length = (c7Game.deck.get 0).length - c7Cards.length ∧
      (g'.hand.get 0).length = (c7Game.hand.get 0).length + c7Cards.length ∧
      handleDraw true false 0 c7Cards g' = .ok g'' ∧
      g''.hand.get 0 = c7Game.hand.get 0 ∧
      (g''.deck.get 0).length = (c7Game.deck.get 0).length ∧
      (g''.deck.get 0).map codeCur = (c7Game.deck.get 0).map codeCur :=
  c7_draw_forward_backward c7Game true 0 c7Cards (by decide) (by decide) (by decide)

end YGOpen
